import Mathlib

/-!
# iPerf-Clone: send/receive protocol and rate arithmetic

A shallow embedding of `iperfer.cpp` (the consolidated client/server) and of the
drain loop of `main.cpp` (the earlier variant of the server).

Conventions of the embedding

* Byte strings (`std::string`, `char[]`) are `List Char`.
* A system call is answered by the environment.  `recv` is answered from a list of
  results, the clock from a list of readings; when such a list is used up the call
  never returns and the run has no return status (`none`).  `send` is answered by a
  function of the call number and the requested length.
* `double` values are exact rationals; a division whose divisor is zero has no
  finite value (`none`).  A report is the pair of numbers passed to `std::cout`.
* `size_t` arithmetic is taken modulo `2 ^ 64`, and a value stored in an `int` is
  narrowed to 32 bits.  A port is the integer its string denotes, and `std::stoi`
  throws when that integer does not fit an `int`.  The signed 64-bit byte counters
  (`total_bytes_received`, `bytes_sent`) are unbounded integers: they only ever grow
  by at most 1000 per step, signed overflow is undefined behaviour in C++, and the
  server keeps the whole stream in memory, so a run cannot get near `2 ^ 63`.
* Diagnostics written to `std::cerr` are not part of the model.
-/

namespace IPerfer

/-! ## Constants (iperfer.cpp, lines 9-10) -/

/-- The sentinel `std::string end_message = "FIN"`. -/
def end_message : List Char := ['F', 'I', 'N']

/-- The constant `CHUNK_SIZE_BYTES = 1000`. -/
def CHUNK_SIZE_BYTES : Nat := 1000

/-- The result of `memset(package, '0', CHUNK_SIZE_BYTES)`: the client's data chunk. -/
def package : List Char := List.replicate CHUNK_SIZE_BYTES '0'

/-- The acknowledgment text of the server (`message`, line 101). -/
def message : String := "'FIN' received, shutting down connection"

/-! ## `std::string::find` -/

/-- The call `s.find(pat)`: the first index at which `pat` occurs in `s`,
or `none` for `std::string::npos`. -/
def find (pat : List Char) : List Char → Option Nat
  | [] => if pat = [] then some 0 else none
  | c :: cs =>
    if pat.isPrefixOf (c :: cs) then some 0
    else (find pat cs).map (fun i => i + 1)

/-! ## `recv` results -/

/-- One answer of `recv(newfd, buffer, CHUNK_SIZE_BYTES, 0)`: the bytes placed at the
start of `buffer` (an empty list is the orderly shutdown of the peer), or a failure. -/
inductive RecvResult where
  | bytes (bs : List Char)
  | error
  deriving DecidableEq, Repr

/-- The value returned by `recv`, as stored in `int bytes_in_this_chunk`. -/
def RecvResult.ret : RecvResult → Int
  | .bytes bs => (bs.length : Int)
  | .error => -1

/-- The first `ret` bytes of `buffer` after the call. -/
def RecvResult.data : RecvResult → List Char
  | .bytes bs => bs
  | .error => []

/-! ## The drain loop of the server (iperfer.cpp, lines 82-96) -/

/-- How the drain loop was left. -/
inductive DrainExit where
  /-- The `break` of line 93: the sentinel was found in `data_stream`. -/
  | sentinel
  /-- The loop condition failed: `recv` returned `ret <= 0`. -/
  | recv_end (ret : Int)
  /-- The loop is still inside a `recv` that never returns. -/
  | blocked
  deriving DecidableEq, Repr

/-- The state of the server when the drain loop is left. -/
structure DrainResult where
  exit : DrainExit
  total_bytes_received : Int
  data_stream : List Char
  /-- The number of `recv` calls issued. -/
  reads : Nat
  deriving DecidableEq, Repr

/-- The loop `while ((bytes_in_this_chunk = recv(...)) > 0) { ... }` run against the
successive answers of `recv`, from the given loop state. -/
def drain : List RecvResult → Int → List Char → Nat → DrainResult
  | [], total, stream, reads => ⟨.blocked, total, stream, reads + 1⟩
  | r :: rest, total, stream, reads =>
    let bytes_in_this_chunk := r.ret
    if bytes_in_this_chunk > 0 then
      let total := total + bytes_in_this_chunk
      let stream := stream ++ r.data
      let fin_pos := find end_message stream
      if fin_pos ≠ none then ⟨.sentinel, total, stream, reads + 1⟩
      else drain rest total stream (reads + 1)
    else ⟨.recv_end bytes_in_this_chunk, total, stream, reads + 1⟩

/-! ## `send_all` (iperfer.cpp, lines 12-24) -/

/-- Conversion of an integer to `size_t`. -/
def to_size_t (x : Int) : Nat := (x % 2 ^ 64).toNat

/-- Conversion of an integer to `int`: 32 bits, two's complement. -/
def to_int (x : Int) : Int := (x + 2 ^ 31) % 2 ^ 32 - 2 ^ 31

/-- One call `send(sockfd, data + offset, len, 0)` and the `ssize_t` value it
returned. -/
structure SendCall where
  offset : Nat
  len : Nat
  ret : Int
  deriving DecidableEq, Repr

/-- What a run of `send_all` did: the value returned (`none` while the loop is still
running when the fuel is used up) and the `send` calls issued, in order. -/
structure SendAllResult where
  ret : Option Int
  calls : List SendCall
  deriving DecidableEq, Repr

/-- The loop of `send_all(sockfd, data, len)` from the state `total_sent`.  The answer
of the `idx`-th call of `send`, asked to transmit `n` bytes, is `send idx n`, which
line 16 stores in `int bytes_sent`; `fuel` bounds the number of iterations. -/
def send_all_loop (send : Nat → Nat → Int) (len : Nat) :
    Nat → Nat → Nat → SendAllResult
  | fuel, idx, total_sent =>
    if total_sent < len then
      match fuel with
      | 0 => ⟨none, []⟩
      | fuel + 1 =>
        let result := send idx (len - total_sent)
        let bytes_sent := to_int result
        let call : SendCall := ⟨total_sent, len - total_sent, result⟩
        if bytes_sent = -1 then ⟨some (-1), [call]⟩
        else
          let r := send_all_loop send len fuel (idx + 1)
            (to_size_t ((total_sent : Int) + bytes_sent))
          ⟨r.ret, call :: r.calls⟩
    else ⟨some 0, []⟩

/-- The function `send_all`, whose first `send` is call number `idx`. -/
def send_all (send : Nat → Nat → Int) (fuel idx len : Nat) : SendAllResult :=
  send_all_loop send len fuel idx 0

/-- The bytes accepted by the socket over a list of calls. -/
def accepted (calls : List SendCall) : Int :=
  ((calls.filter (fun c => c.ret ≠ -1)).map (fun c => c.ret)).sum

/-! ## Rate arithmetic (iperfer.cpp, lines 111-115 and 206-209) -/

/-- The C function `round`: nearest integer, halfway cases away from zero. -/
def cround (x : ℚ) : ℚ :=
  if 0 ≤ x then ((⌊x + 1 / 2⌋ : ℤ) : ℚ) else ((⌈x - 1 / 2⌉ : ℤ) : ℚ)

/-- Division by a run-time value: no finite value when the divisor is zero. -/
def fdiv (x y : ℚ) : Option ℚ := if y = 0 then none else some (x / y)

/-- The two numbers handed to `std::cout` for the printed line (their formatting as
text is left to the stream); `rate = none` records that the rate came out of a division
by zero. -/
structure Report where
  volume : ℚ
  rate : Option ℚ
  deriving DecidableEq, Repr

/-- Lines 111-115: the report step of the server.  The arithmetic is exact: the
rounding of each `double` operation is not represented, so a rate that the code rounds
at a tie can differ from this one in its last decimal. -/
def server_report (total_bytes_received : Int) (duration_s : ℚ) : Option Report :=
  if duration_s ≠ 0 then
    let kb_received := cround (((total_bytes_received * 10 : Int) : ℚ) / 1024) / 10
    let mbps := (fdiv (kb_received * 80 / 1000) duration_s).map (fun q => cround q / 10)
    some ⟨kb_received, mbps⟩
  else none

/-- Lines 206-209: the report step of the client, in exact arithmetic like
`server_report`. -/
def client_report (bytes_sent : Int) (duration_s : ℚ) : Report :=
  let kb_sent := cround (((10 * bytes_sent : Int) : ℚ) / 1024) / 10
  let rate_mbps :=
    (fdiv (kb_sent * 10) duration_s).map (fun q => cround (q / 1000 * 8) / 10)
  ⟨kb_sent, rate_mbps⟩

/-! ## Operations on the operating system -/

/-- The calls a role makes on addresses and sockets. -/
inductive Event where
  | getaddrinfo
  | freeaddrinfo
  | socket (fd : Int)
  | bind (fd : Int)
  | listen (fd : Int)
  | accept (fd newfd : Int)
  | connect (fd : Int)
  | recv (fd : Int)
  | send (fd : Int)
  | shutdown (fd : Int)
  | close (fd : Int)
  deriving DecidableEq, Repr

/-- The exceptions of `std::stoi`. -/
inductive StdException where
  | out_of_range
  deriving DecidableEq, Repr

/-- The call `std::stoi(port)` on a string that denotes the integer `p`: the value when
it fits an `int`, and `none` when `std::out_of_range` is thrown. -/
def stoi (p : Int) : Option Int :=
  if -2147483648 ≤ p ∧ p ≤ 2147483647 then some p else none

/-- What a run of a role did: the value returned (`none` when the run never returns or
is left by an exception), the calls made, the line printed on standard output, and the
exception that left the function, if any. -/
structure Outcome where
  status : Option Int
  trace : List Event
  report : Option Report
  threw : Option StdException
  deriving DecidableEq, Repr

/-! ## The server (iperfer.cpp, lines 26-120) -/

/-- The answers of the environment to the calls of `server`. -/
structure ServerEnv where
  getaddrinfo_ret : Int
  socket_fd : Int
  bind_ret : Int
  listen_ret : Int
  accept_fd : Int
  recvs : List RecvResult
  start_time : ℚ
  end_time : ℚ
  send : Nat → Nat → Int
  send_fuel : Nat
  shutdown_ret : Int

/-- The function `server`, on a port string that denotes the integer `port`. -/
def server (port : Int) (env : ServerEnv) : Outcome :=
  match stoi port with
  | none => ⟨none, [], none, some .out_of_range⟩
  | some port_number =>
    if port_number < 1024 ∨ port_number > 65535 then ⟨some 1, [], none, none⟩
    else if env.getaddrinfo_ret ≠ 0 then ⟨some (-1), [.getaddrinfo], none, none⟩
    else
      let sockfd := env.socket_fd
      let t0 : List Event := [.getaddrinfo, .socket sockfd, .bind sockfd]
      if env.bind_ret = -1 then ⟨some (-1), t0 ++ [.close sockfd, .freeaddrinfo], none, none⟩
      else
        let t1 := t0 ++ [.freeaddrinfo, .listen sockfd]
        if env.listen_ret = -1 then ⟨some (-1), t1 ++ [.close sockfd], none, none⟩
        else
          let newfd := env.accept_fd
          let t2 := t1 ++ [.accept sockfd newfd]
          let d := drain env.recvs 0 [] 0
          let t3 := t2 ++ List.replicate d.reads (.recv newfd)
          if d.exit = .blocked then ⟨none, t3, none, none⟩
          else
            let duration_s := env.end_time - env.start_time
            let a := send_all env.send env.send_fuel 0 message.length
            let t4 := t3 ++ List.replicate a.calls.length (.send newfd)
            match a.ret with
            | none => ⟨none, t4, none, none⟩
            | some flag =>
              if flag = -1 then ⟨some (-1), t4, none, none⟩
              else
                ⟨some 0, t4 ++ [.shutdown newfd, .close newfd, .close sockfd],
                  server_report d.total_bytes_received duration_s, none⟩

/-! ## The client (iperfer.cpp, lines 122-211) -/

/-- How the send loop of the client was left. -/
inductive LoopExit where
  /-- The `break` of line 165: `duration_s.count() >= time_s`. -/
  | elapsed
  /-- The `return -1` of line 173: a chunk could not be sent. -/
  | send_failed
  /-- The loop is still running when the answers of the environment are used up. -/
  | running
  deriving DecidableEq, Repr

/-- The state of the client when the send loop is left. -/
structure SendLoopResult where
  exit : LoopExit
  bytes_sent : Int
  duration_s : ℚ
  /-- The number of `send` calls issued. -/
  sends : Nat
  /-- The number of clock readings taken inside the loop. -/
  readings : Nat
  /-- The clock readings not yet taken. -/
  clock : List ℚ
  deriving DecidableEq, Repr

/-- The loop of lines 163-180, from the state `(duration_s, bytes_sent)`; `idx` counts
the `send` calls and `readings` the clock readings made so far. -/
def send_loop (send : Nat → Nat → Int) (fuel : Nat) (time_s : Int) (start_time : ℚ) :
    List ℚ → ℚ → Int → Nat → Nat → SendLoopResult
  | clock, duration_s, bytes_sent, idx, readings =>
    if duration_s ≥ (time_s : ℚ) then ⟨.elapsed, bytes_sent, duration_s, idx, readings, clock⟩
    else
      let a := send_all send fuel idx CHUNK_SIZE_BYTES
      let idx := idx + a.calls.length
      match a.ret with
      | none => ⟨.running, bytes_sent, duration_s, idx, readings, clock⟩
      | some flag =>
        if flag = -1 then ⟨.send_failed, bytes_sent, duration_s, idx, readings, clock⟩
        else
          let bytes_sent := bytes_sent + CHUNK_SIZE_BYTES
          match clock with
          | [] => ⟨.running, bytes_sent, duration_s, idx, readings, []⟩
          | end_time :: clock =>
            send_loop send fuel time_s start_time clock (end_time - start_time) bytes_sent idx
              (readings + 1)

/-- The answers of the environment to the calls of `client`.  `duration_init` is the
value found in `duration_s` at line 160, which is declared without an initialiser. -/
structure ClientEnv where
  getaddrinfo_ret : Int
  socket_fd : Int
  connect_ret : Int
  duration_init : ℚ
  start_time : ℚ
  clock : List ℚ
  send : Nat → Nat → Int
  send_fuel : Nat
  recv_ret : Int

/-- The function `client`, on a port string that denotes the integer `port`. -/
def client (port : Int) (time_s : Int) (env : ClientEnv) : Outcome :=
  match stoi port with
  | none => ⟨none, [], none, some .out_of_range⟩
  | some port_number =>
    if port_number < 1024 ∨ port_number > 65535 then ⟨some 1, [], none, none⟩
    else if time_s < 1 then ⟨some 1, [], none, none⟩
    else if env.getaddrinfo_ret ≠ 0 then ⟨some (-1), [.getaddrinfo], none, none⟩
    else
      let sockfd := env.socket_fd
      let t0 : List Event := [.getaddrinfo, .socket sockfd, .connect sockfd]
      if env.connect_ret = -1 then
        ⟨some (-1), t0 ++ [.close sockfd, .freeaddrinfo], none, none⟩
      else
        let l := send_loop env.send env.send_fuel time_s env.start_time env.clock
          env.duration_init 0 0 0
        let t1 := t0 ++ List.replicate l.sends (.send sockfd)
        match l.exit with
        | .running => ⟨none, t1, none, none⟩
        | .send_failed => ⟨some (-1), t1 ++ [.close sockfd, .freeaddrinfo], none, none⟩
        | .elapsed =>
          let a := send_all env.send env.send_fuel l.sends end_message.length
          let t2 := t1 ++ List.replicate a.calls.length (.send sockfd)
          match a.ret with
          | none => ⟨none, t2, none, none⟩
          | some flag =>
            if flag = -1 then ⟨some (-1), t2 ++ [.close sockfd, .freeaddrinfo], none, none⟩
            else
              let t3 := t2 ++ [.recv sockfd]
              if env.recv_ret = -1 then
                ⟨some (-1), t3 ++ [.close sockfd, .freeaddrinfo], none, none⟩
              else
                match l.clock with
                | [] => ⟨none, t3, none, none⟩
                | end_time :: _ =>
                  let duration_s := end_time - env.start_time
                  ⟨some 0, t3 ++ [.close sockfd, .freeaddrinfo],
                    some (client_report l.bytes_sent duration_s), none⟩

/-! ## The entry point (iperfer.cpp, lines 213-252) -/

/-- A well-formed command line: `-s -p <port>`, or `-c -h <host> -p <port> -t <time>`,
with the integers that the strings `<port>` and `<time>` denote. -/
inductive Invocation where
  | server (port : Int) (env : ServerEnv)
  | client (port time : Int) (env : ClientEnv)

/-- The function `main` on a well-formed command line.  The call of `server` (line 219)
has no handler, so an exception of `server` leaves `main`; the call of `client`
(line 235) and the conversion of `<time>` are inside `try`, and the handler returns 1. -/
def main : Invocation → Outcome
  | .server port env => server port env
  | .client port time env =>
    match stoi time with
    | none => ⟨some 1, [], none, none⟩
    | some time_s =>
      let o := client port time_s env
      if o.threw ≠ none then ⟨some 1, o.trace, o.report, none⟩ else o

end IPerfer

/-! ## The drain loop of the earlier server (main.cpp, lines 106-117) -/

namespace MainCpp

open IPerfer (RecvResult DrainExit DrainResult to_size_t)

/-- The sentinel `std::string end_message = "FIN"` (main.cpp, line 21). -/
def end_message : List Char := ['F', 'I', 'N']

/-- The value `std::string::npos`. -/
def npos : Nat := 2 ^ 64 - 1

/-- The call `s.find_last_not_of(set)`: the index of the last character of `s` that is
not in `set`, or `npos`. -/
def find_last_not_of (s set : List Char) : Nat :=
  match s.reverse.dropWhile (fun c => c ∈ set) with
  | [] => npos
  | c :: cs => (c :: cs).length - 1

/-- The call `s.erase(pos)`: `s` cut at index `pos`. -/
def erase (s : List Char) (pos : Nat) : List Char := s.take pos

/-- The loop of lines 107-117, run against the successive answers of `recv`.  The
field `data_stream` of the result holds the last `received_data`. -/
def drain : List RecvResult → Int → List Char → Nat → DrainResult
  | [], total, last, reads => ⟨.blocked, total, last, reads + 1⟩
  | r :: rest, total, last, reads =>
    let bytes_in_this_chunk := r.ret
    if bytes_in_this_chunk > 0 then
      let total := total + bytes_in_this_chunk
      let received_data := r.data
      let received_data := erase received_data
        (to_size_t ((find_last_not_of received_data [' ', '\t', '\n', '\r'] : Int) + 1))
      if received_data = end_message then ⟨.sentinel, total, received_data, reads + 1⟩
      else drain rest total received_data (reads + 1)
    else ⟨.recv_end bytes_in_this_chunk, total, last, reads + 1⟩

end MainCpp

/-! ## The stream written by the client -/

namespace IPerfer

/-- The bytes put on the wire by a client whose send loop ran `n` times: `n` times the
chunk `package` (line 168), then `end_message` (line 183). -/
def client_stream (n : Nat) : List Char :=
  (List.replicate n package).flatten ++ end_message

/-! ## Facts about `find` -/

theorem find_eq_none_iff (pat s : List Char) : find pat s = none ↔ ¬ pat <:+: s := by
  induction s with
  | nil => by_cases h : pat = [] <;> simp [find, h]
  | cons c cs ih =>
    rw [find, List.infix_cons_iff]
    by_cases h : pat <+: c :: cs
    · simp [h]
    · simp [h, ih]

theorem find_none_of_append (pat s t : List Char) (h : find pat (s ++ t) = none) :
    find pat s = none := by
  rw [find_eq_none_iff] at h ⊢
  exact fun hs => h (hs.trans (List.prefix_append s t).isInfix)

theorem find_none_of_not_mem (s : List Char) (h : 'N' ∉ s) : find end_message s = none := by
  rw [find_eq_none_iff]
  exact fun hs => h (hs.subset (by simp [end_message]))

theorem find_of_suffix (s : List Char) : find end_message (s ++ end_message) ≠ none := by
  rw [Ne, find_eq_none_iff, not_not]
  exact (List.suffix_append s end_message).isInfix

/-! ## Facts about the drain loop -/

/-- A non-empty read that leaves the stream without sentinel is followed by another
`recv`. -/
theorem drain_cons_continue (c : List Char) (rest : List RecvResult) (total : Int)
    (acc : List Char) (reads : Nat) (hc : c ≠ [])
    (h : find end_message (acc ++ c) = none) :
    drain (.bytes c :: rest) total acc reads
      = drain rest (total + c.length) (acc ++ c) (reads + 1) := by
  have hpos : (0 : Int) < (c.length : Int) := by
    have := List.length_pos.mpr hc
    omega
  rw [drain]
  simp [RecvResult.ret, RecvResult.data, hpos, h]

/-- A non-empty read that completes a sentinel ends the loop. -/
theorem drain_cons_sentinel (c : List Char) (rest : List RecvResult) (total : Int)
    (acc : List Char) (reads : Nat) (hc : c ≠ [])
    (h : find end_message (acc ++ c) ≠ none) :
    drain (.bytes c :: rest) total acc reads
      = ⟨.sentinel, total + c.length, acc ++ c, reads + 1⟩ := by
  have hpos : (0 : Int) < (c.length : Int) := by
    have := List.length_pos.mpr hc
    omega
  rw [drain]
  simp [RecvResult.ret, RecvResult.data, hpos, h]

/-- Reads that do not complete a sentinel are consumed one after the other. -/
theorem drain_skip (rs : List (List Char)) (rest : List RecvResult) :
    ∀ (total : Int) (acc : List Char) (reads : Nat), (∀ c ∈ rs, c ≠ []) →
      find end_message (acc ++ rs.flatten) = none →
      drain (rs.map .bytes ++ rest) total acc reads
        = drain rest (total + rs.flatten.length) (acc ++ rs.flatten) (reads + rs.length) := by
  induction rs with
  | nil => intro total acc reads _ _; simp
  | cons c rs ih =>
    intro total acc reads hne hfind
    have hc : c ≠ [] := hne c (List.mem_cons_self _ _)
    have hstep : find end_message (acc ++ c) = none := by
      apply find_none_of_append _ _ rs.flatten
      simpa using hfind
    have hrest : find end_message (acc ++ c ++ rs.flatten) = none := by simpa using hfind
    have ih' := ih (total + c.length) (acc ++ c) (reads + 1)
      (fun x hx => hne x (List.mem_cons_of_mem _ hx)) hrest
    rw [List.map_cons, List.cons_append, drain_cons_continue c _ total acc reads hc hstep, ih']
    simp only [List.flatten, List.length_append, List.length_cons, List.append_assoc]
    congr 1
    · push_cast; ring
    · omega

theorem not_mem_dropLast_client_stream (n : Nat) : 'N' ∉ (client_stream n).dropLast := by
  have h : (client_stream n).dropLast = (List.replicate n package).flatten ++ ['F', 'I'] := by
    rw [client_stream, end_message, List.dropLast_append_of_ne_nil _ (by simp)]
    rfl
  rw [h]
  simp only [List.mem_append, List.mem_flatten, List.mem_replicate, not_or]
  constructor
  · rintro ⟨l, ⟨_, rfl⟩, hl⟩
    have := (List.mem_replicate.mp hl).2
    exact absurd this (by decide)
  · decide

theorem length_client_stream (n : Nat) : (client_stream n).length = 1000 * n + 3 := by
  simp only [client_stream, List.length_append, List.length_flatten, List.map_replicate,
    List.sum_replicate, package, List.length_replicate, CHUNK_SIZE_BYTES, end_message,
    List.length_cons, List.length_nil, smul_eq_mul]
  ring

/-- The run of the drain loop over any split of the client's stream. -/
theorem drain_client_stream (n : Nat) (cs : List (List Char)) (rest : List RecvResult)
    (hsplit : cs.flatten = client_stream n) (hne : ∀ c ∈ cs, c ≠ []) :
    drain (cs.map .bytes ++ rest) 0 [] 0
      = ⟨.sentinel, 1000 * n + 3, client_stream n, cs.length⟩ := by
  have hcs : cs ≠ [] := by
    rintro rfl
    have := congrArg List.length hsplit
    rw [length_client_stream] at this
    simp at this
  obtain ⟨init, last, rfl⟩ : ∃ init last, cs = init ++ [last] :=
    ⟨cs.dropLast, cs.getLast hcs, (List.dropLast_concat_getLast hcs).symm⟩
  have hlast : last ≠ [] := hne last (by simp)
  have hS : init.flatten ++ last = client_stream n := by simpa using hsplit
  have hpre : 'N' ∉ init.flatten := by
    have h := not_mem_dropLast_client_stream n
    rw [← hS, List.dropLast_append_of_ne_nil _ hlast] at h
    exact fun hm => h (List.mem_append_left _ hm)
  have hpos : (0 : Int) < (last.length : Int) := by
    have := List.length_pos.mpr hlast
    omega
  have hfin : find end_message (init.flatten ++ last) ≠ none := by
    rw [hS, client_stream]
    exact find_of_suffix _
  have hlen : (init.flatten.length : Int) + last.length = 1000 * n + 3 := by
    have := congrArg List.length hS
    rw [length_client_stream, List.length_append] at this
    exact_mod_cast this
  rw [List.map_append, List.append_assoc,
    drain_skip init _ 0 [] 0 (fun c hc => hne c (List.mem_append_left _ hc))
      (by simpa using find_none_of_not_mem _ hpre)]
  rw [List.map_cons, List.map_nil, List.cons_append, List.nil_append,
    drain_cons_sentinel last rest _ _ _ hlast (by simpa using hfin)]
  simp only [List.nil_append, hS, List.length_append, List.length_cons, List.length_nil,
    zero_add]
  congr 1

/-- A proper prefix of the client's stream holds no `N`. -/
theorem not_mem_of_proper_initial (n : Nat) (a b : List Char) (h : a ++ b = client_stream n)
    (hb : b ≠ []) : 'N' ∉ a := by
  have hd := not_mem_dropLast_client_stream n
  rw [← h, List.dropLast_append_of_ne_nil _ hb] at hd
  exact fun hm => hd (List.mem_append_left _ hm)

theorem flatten_ne_nil (cs : List (List Char)) (hne : ∀ c ∈ cs, c ≠ []) (hcs : cs ≠ []) :
    cs.flatten ≠ [] := by
  cases cs with
  | nil => exact absurd rfl hcs
  | cons c cs =>
    have hc : c ≠ [] := hne c (List.mem_cons_self _ _)
    simp [List.flatten, hc]

/-- After only the first `k` reads of a split of the client's stream the loop has not
been left: it is inside read number `k + 1`. -/
theorem drain_client_stream_take (n : Nat) (cs : List (List Char))
    (hsplit : cs.flatten = client_stream n) (hne : ∀ c ∈ cs, c ≠ []) (k : Nat)
    (hk : k < cs.length) :
    drain ((cs.take k).map .bytes) 0 [] 0
      = ⟨.blocked, ((cs.take k).flatten.length : Int), (cs.take k).flatten, k + 1⟩ := by
  have hdrop : (cs.drop k).flatten ≠ [] := by
    apply flatten_ne_nil
    · exact fun c hc => hne c (List.mem_of_mem_drop hc)
    · intro h
      have := congrArg List.length h
      simp at this
      omega
  have hS : (cs.take k).flatten ++ (cs.drop k).flatten = client_stream n := by
    rw [← List.flatten_append, List.take_append_drop, hsplit]
  have hN := not_mem_of_proper_initial n _ _ hS hdrop
  have h := drain_skip (cs.take k) [] 0 [] 0 (fun c hc => hne c (List.mem_of_mem_take hc))
    (by simpa using find_none_of_not_mem _ hN)
  rw [List.append_nil] at h
  rw [h, drain]
  simp [List.length_take, Nat.min_eq_left (Nat.le_of_lt hk)]

/-- C1: for every `n` and every split of the stream of `n` chunks followed by `FIN` into
non-empty reads of at most 1000 bytes, the drain loop of the server leaves through the
sentinel branch at the last read of the split, the one that ends with the final `N`:
it issues exactly as many `recv` calls as the split has reads, whatever the environment
would answer afterwards, and after any smaller number of reads it is still waiting in
the next `recv`. -/
theorem drain_leaves_at_final_N (n : Nat) (cs : List (List Char)) (rest : List RecvResult)
    (hsplit : cs.flatten = client_stream n)
    (hsize : ∀ c ∈ cs, 1 ≤ c.length ∧ c.length ≤ CHUNK_SIZE_BYTES) :
    (drain (cs.map .bytes ++ rest) 0 [] 0).exit = .sentinel ∧
    (drain (cs.map .bytes ++ rest) 0 [] 0).reads = cs.length ∧
    (∃ last, cs.getLast? = some last ∧ last.getLast? = some 'N') ∧
    (∀ k, k < cs.length →
      (drain ((cs.take k).map .bytes) 0 [] 0).exit = .blocked ∧
      (drain ((cs.take k).map .bytes) 0 [] 0).reads = k + 1) := by
  have hne : ∀ c ∈ cs, c ≠ [] := fun c hc h => by
    have := (hsize c hc).1
    rw [h] at this
    simp at this
  rw [drain_client_stream n cs rest hsplit hne]
  refine ⟨rfl, rfl, ?_, ?_⟩
  · have hcs : cs ≠ [] := by
      rintro rfl
      have := congrArg List.length hsplit
      rw [length_client_stream] at this
      simp at this
    refine ⟨cs.getLast hcs, List.getLast?_eq_getLast _ hcs, ?_⟩
    have hl : cs.getLast hcs ≠ [] := hne _ (List.getLast_mem hcs)
    have hS : cs.dropLast.flatten ++ cs.getLast hcs = client_stream n := by
      rw [← hsplit]
      conv_rhs => rw [← List.dropLast_concat_getLast hcs]
      simp
    have h1 : (client_stream n).getLast? = some 'N' := by
      simp [client_stream, end_message]
    rw [← hS, List.getLast?_append_of_ne_nil _ hl] at h1
    exact h1
  · intro k hk
    rw [drain_client_stream_take n cs hsplit hne k hk]
    exact ⟨rfl, rfl⟩

/-- The statement of C1 at the stream of one chunk followed by `FIN`, delivered as the
reads `F`, `I`, `N` after the chunk, with a further failing answer that is never asked for. -/
theorem drain_leaves_at_final_N_witness :
    (drain ([package, ['F'], ['I'], ['N']].map .bytes ++ [.error]) 0 [] 0).exit = .sentinel ∧
    (drain ([package, ['F'], ['I'], ['N']].map .bytes ++ [.error]) 0 [] 0).reads = 4 :=
  have h := drain_leaves_at_final_N 1 [package, ['F'], ['I'], ['N']] [.error]
    (by decide!) (by decide!)
  ⟨h.1, h.2.1⟩

/-- C2 as stated fails: on the stream of one chunk followed by `FIN`, read as the chunk
and then the sentinel, the server's total is 1003, not 1000. -/
theorem server_total_counterexample :
    [package, end_message].flatten = client_stream 1 ∧
    package.length = 1000 ∧ end_message.length = 3 ∧
    (drain ([package, end_message].map .bytes) 0 [] 0).total_bytes_received = 1003 ∧
    (drain ([package, end_message].map .bytes) 0 [] 0).total_bytes_received ≠ 1000 * 1 := by
  decide!

/-! ## The server after its set-up -/

theorem stoi_of_int (p : Int) (h : -2147483648 ≤ p ∧ p ≤ 2147483647) : stoi p = some p := by
  simp [stoi, h]

theorem stoi_beyond_int (p : Int) (h : p < -2147483648 ∨ 2147483647 < p) : stoi p = none := by
  have : ¬ (-2147483648 ≤ p ∧ p ≤ 2147483647) := by omega
  simp [stoi, this]

/-- Once the port is accepted and address resolution, `bind` and `listen` succeed,
the result of `server` is decided by the drain loop and by the acknowledgment. -/
theorem server_after_setup (p : Int) (env : ServerEnv)
    (hp : 1024 ≤ p ∧ p ≤ 65535) (hg : env.getaddrinfo_ret = 0)
    (hb : env.bind_ret ≠ -1) (hl : env.listen_ret ≠ -1)
    (hd : (drain env.recvs 0 [] 0).exit ≠ .blocked) :
    ((send_all env.send env.send_fuel 0 message.length).ret = some 0 →
      (server p env).status = some 0 ∧
      (server p env).report
        = server_report (drain env.recvs 0 [] 0).total_bytes_received
            (env.end_time - env.start_time)) ∧
    ((send_all env.send env.send_fuel 0 message.length).ret = some (-1) →
      (server p env).status = some (-1) ∧ (server p env).report = none) := by
  have hp' : ¬ (p < 1024 ∨ p > 65535) := by omega
  have hs : stoi p = some p := stoi_of_int p (by omega)
  constructor
  · intro h
    simp [server, hs, hp', hg, hb, hl, hd, h]
  · intro h
    simp [server, hs, hp', hg, hb, hl, hd, h]

/-- C2, amended: for every `n` and every split of the client's stream into non-empty
reads of at most 1000 bytes, the byte total of the server is `1000 * n + 3`: the data
bytes and the 3 bytes of the sentinel; a server that got through its set-up and whose
acknowledgment is sent returns 0 and computes its report from that total. -/
theorem server_total_includes_sentinel (n : Nat) (cs : List (List Char))
    (rest : List RecvResult) (p : Int) (env : ServerEnv)
    (hsplit : cs.flatten = client_stream n)
    (hsize : ∀ c ∈ cs, 1 ≤ c.length ∧ c.length ≤ CHUNK_SIZE_BYTES)
    (hp : 1024 ≤ p ∧ p ≤ 65535) (hg : env.getaddrinfo_ret = 0)
    (hb : env.bind_ret ≠ -1) (hl : env.listen_ret ≠ -1)
    (hrecvs : env.recvs = cs.map .bytes ++ rest)
    (hack : (send_all env.send env.send_fuel 0 message.length).ret = some 0) :
    (drain (cs.map .bytes ++ rest) 0 [] 0).total_bytes_received = 1000 * n + 3 ∧
    (server p env).status = some 0 ∧
    (server p env).report = server_report (1000 * n + 3) (env.end_time - env.start_time) := by
  have hne : ∀ c ∈ cs, c ≠ [] := fun c hc h => by
    have := (hsize c hc).1
    rw [h] at this
    simp at this
  have hdrain := drain_client_stream n cs rest hsplit hne
  have hd : (drain env.recvs 0 [] 0).exit ≠ .blocked := by
    rw [hrecvs, hdrain]
    simp
  have h := (server_after_setup p env hp hg hb hl hd).1 hack
  rw [hrecvs, hdrain] at h
  rw [hdrain]
  exact ⟨rfl, h.1, h.2⟩

/-- The statement of C2, amended, at one chunk and the sentinel read in two reads over
one second: the report is the one of 1003 bytes. -/
theorem server_total_includes_sentinel_witness :
    (server 5000 ⟨0, 3, 0, 0, 4, [.bytes package, .bytes end_message], 0, 1,
      fun _ n => n, 40, 0⟩).report = server_report 1003 1 :=
  have h := server_total_includes_sentinel 1 [package, end_message] [] 5000
    ⟨0, 3, 0, 0, 4, [.bytes package, .bytes end_message], 0, 1, fun _ n => n, 40, 0⟩
    (by decide!) (by decide!) (by decide) (by decide) (by decide) (by decide) (by decide!)
    (by decide!)
  by simpa using h.2.2

/-- For a port that fits an `int`, `server` returns 1 without any call on addresses or
sockets exactly when the port is below 1024 or above 65535, and `client` does so exactly
when the port is outside that range or the duration is below 1; in all other runs the
status is not 1 and the trace of calls is not empty. -/
theorem validation_within_int (p time_s : Int) (senv : ServerEnv) (cenv : ClientEnv)
    (hint : -2147483648 ≤ p ∧ p ≤ 2147483647) :
    (((server p senv).status = some 1 ∧ (server p senv).trace = []) ↔
      (p < 1024 ∨ p > 65535)) ∧
    (((client p time_s cenv).status = some 1 ∧ (client p time_s cenv).trace = []) ↔
      ((p < 1024 ∨ p > 65535) ∨ time_s < 1)) ∧
    ((server p senv).status = some 1 ↔ (p < 1024 ∨ p > 65535)) ∧
    ((server p senv).trace = [] ↔ (p < 1024 ∨ p > 65535)) ∧
    ((client p time_s cenv).status = some 1 ↔ ((p < 1024 ∨ p > 65535) ∨ time_s < 1)) ∧
    ((client p time_s cenv).trace = [] ↔ ((p < 1024 ∨ p > 65535) ∨ time_s < 1)) := by
  have hs : stoi p = some p := stoi_of_int p hint
  have hs1 : (server p senv).status = some 1 ↔ (p < 1024 ∨ p > 65535) := by
    unfold server
    rw [hs]
    show (if p < 1024 ∨ p > 65535 then _ else _ : Outcome).status = some 1 ↔ _
    by_cases hp : p < 1024 ∨ p > 65535
    · simp [hp]
    · simp only [hp, if_false, iff_false]
      repeat' split
      all_goals simp
  have hs2 : (server p senv).trace = [] ↔ (p < 1024 ∨ p > 65535) := by
    unfold server
    rw [hs]
    show (if p < 1024 ∨ p > 65535 then _ else _ : Outcome).trace = [] ↔ _
    by_cases hp : p < 1024 ∨ p > 65535
    · simp [hp]
    · simp only [hp, if_false, iff_false]
      repeat' split
      all_goals simp
  have hc1 : (client p time_s cenv).status = some 1 ↔ ((p < 1024 ∨ p > 65535) ∨ time_s < 1) := by
    unfold client
    rw [hs]
    show (if p < 1024 ∨ p > 65535 then _ else _ : Outcome).status = some 1 ↔ _
    by_cases hp : p < 1024 ∨ p > 65535
    · simp [hp]
    · by_cases ht : time_s < 1
      · simp [hp, ht]
      · simp only [hp, ht, if_false, iff_false, or_self]
        repeat' split
        all_goals simp
  have hc2 : (client p time_s cenv).trace = [] ↔ ((p < 1024 ∨ p > 65535) ∨ time_s < 1) := by
    unfold client
    rw [hs]
    show (if p < 1024 ∨ p > 65535 then _ else _ : Outcome).trace = [] ↔ _
    by_cases hp : p < 1024 ∨ p > 65535
    · simp [hp]
    · by_cases ht : time_s < 1
      · simp [hp, ht]
      · simp only [hp, ht, if_false, iff_false, or_self]
        repeat' split
        all_goals simp
  refine ⟨?_, ?_, hs1, hs2, hc1, hc2⟩
  · constructor
    · exact fun h => hs1.mp h.1
    · exact fun h => ⟨hs1.mpr h, hs2.mpr h⟩
  · constructor
    · exact fun h => hc1.mp h.1
    · exact fun h => ⟨hc1.mpr h, hc2.mpr h⟩

/-- C5: on the port `2147483648`, which is above 65535, `server` does not return 1:
`std::stoi` throws `std::out_of_range` before the range test, no call on addresses or
sockets is made, and the exception leaves `main`; on the same port the exception of
`client` is caught in `main`, which returns 1. -/
theorem server_port_beyond_int_throws (senv : ServerEnv) (cenv : ClientEnv) :
    server 2147483648 senv = ⟨none, [], none, some .out_of_range⟩ ∧
    main (.server 2147483648 senv) = ⟨none, [], none, some .out_of_range⟩ ∧
    client 2147483648 1 cenv = ⟨none, [], none, some .out_of_range⟩ ∧
    main (.client 2147483648 1 cenv) = ⟨some 1, [], none, none⟩ := by
  have hs : stoi 2147483648 = none := stoi_beyond_int _ (by decide)
  have h1 : stoi 1 = some 1 := stoi_of_int _ (by decide)
  have hsv : server 2147483648 senv = ⟨none, [], none, some .out_of_range⟩ := by
    simp [server, hs]
  have hcl : client 2147483648 1 cenv = ⟨none, [], none, some .out_of_range⟩ := by
    simp [client, hs]
  refine ⟨hsv, ?_, hcl, ?_⟩
  · simp [main, hsv]
  · simp [main, h1, hcl]

/-! ## `send_all` -/

theorem to_size_t_of_lt (x : Int) (h0 : 0 ≤ x) (h : x < 2 ^ 64) : to_size_t x = x.toNat := by
  rw [to_size_t, Int.emod_eq_of_lt h0 h]

theorem to_int_of_lt (x : Int) (h0 : -2147483648 ≤ x) (h : x ≤ 2147483647) : to_int x = x := by
  unfold to_int
  rw [Int.emod_eq_of_lt (by omega) (by omega)]
  omega

theorem accepted_nil : accepted [] = 0 := rfl

theorem accepted_cons_of_ne (c : SendCall) (cs : List SendCall) (h : c.ret ≠ -1) :
    accepted (c :: cs) = c.ret + accepted cs := by
  simp [accepted, List.filter_cons, h]

theorem accepted_cons_of_eq (c : SendCall) (cs : List SendCall) (h : c.ret = -1) :
    accepted (c :: cs) = accepted cs := by
  simp [accepted, List.filter_cons, h]

/-- The loop of `send_all` from any state, against a socket that on each call either
fails or accepts between 1 byte and the bytes still unsent, and no more than an `int`
holds. -/
theorem send_all_loop_spec (send : Nat → Nat → Int) (len : Nat) (hlen : len < 2 ^ 64)
    (hsend : ∀ i r, 0 < r →
      send i r = -1 ∨ (1 ≤ send i r ∧ send i r ≤ r ∧ send i r ≤ 2147483647)) :
    ∀ fuel idx total_sent, total_sent ≤ len → len - total_sent ≤ fuel →
      ((send_all_loop send len fuel idx total_sent).ret = some 0 ∨
        (send_all_loop send len fuel idx total_sent).ret = some (-1)) ∧
      ((send_all_loop send len fuel idx total_sent).ret = some 0 →
        (total_sent : Int) + accepted (send_all_loop send len fuel idx total_sent).calls = len ∧
        ∀ c ∈ (send_all_loop send len fuel idx total_sent).calls, c.ret ≠ -1) ∧
      ((send_all_loop send len fuel idx total_sent).ret = some (-1) →
        (total_sent : Int) + accepted (send_all_loop send len fuel idx total_sent).calls < len ∧
        ∃ c ∈ (send_all_loop send len fuel idx total_sent).calls, c.ret = -1) ∧
      (∀ pre c post, (send_all_loop send len fuel idx total_sent).calls = pre ++ c :: post →
        (c.offset : Int) = total_sent + accepted pre ∧ c.len = len - c.offset ∧
        c.ret = send (idx + pre.length) c.len ∧ (c.ret = -1 → post = [])) := by
  intro fuel
  induction fuel with
  | zero =>
    intro idx total_sent hle hfuel
    have hnot : ¬ total_sent < len := by omega
    have hr : send_all_loop send len 0 idx total_sent = ⟨some 0, []⟩ := by
      rw [send_all_loop]; simp [hnot]
    rw [hr]
    refine ⟨Or.inl rfl, fun _ => ⟨by simp [accepted_nil]; omega, by simp⟩, by simp, ?_⟩
    intro pre c post h
    simp at h
  | succ fuel ih =>
    intro idx total_sent hle hfuel
    by_cases hlt : total_sent < len
    · rcases hsend idx (len - total_sent) (by omega) with hfail | ⟨h1, h2, hint⟩
      · have hr : send_all_loop send len (fuel + 1) idx total_sent
            = ⟨some (-1), [⟨total_sent, len - total_sent, -1⟩]⟩ := by
          rw [send_all_loop]; simp [hlt, hfail, to_int_of_lt]
        rw [hr]
        refine ⟨Or.inr rfl, by simp, fun _ => ⟨?_, ⟨_, List.mem_singleton.mpr rfl, rfl⟩⟩, ?_⟩
        · rw [accepted_cons_of_eq _ _ rfl, accepted_nil]
          simp only [add_zero, Nat.cast_lt]
          exact hlt
        · intro pre c post h
          cases pre with
          | nil =>
            simp only [List.nil_append, List.cons.injEq] at h
            obtain ⟨rfl, rfl⟩ := h
            simp [accepted_nil, hfail]
          | cons x pre => simp at h
      · have hne : send idx (len - total_sent) ≠ -1 := by omega
        have hsz : to_size_t ((total_sent : Int) + send idx (len - total_sent))
            = total_sent + (send idx (len - total_sent)).toNat := by
          rw [to_size_t_of_lt _ (by omega) (by omega)]
          omega
        have hr : send_all_loop send len (fuel + 1) idx total_sent
            = ⟨(send_all_loop send len fuel (idx + 1)
                  (total_sent + (send idx (len - total_sent)).toNat)).ret,
                ⟨total_sent, len - total_sent, send idx (len - total_sent)⟩ ::
                (send_all_loop send len fuel (idx + 1)
                  (total_sent + (send idx (len - total_sent)).toNat)).calls⟩ := by
          rw [send_all_loop]
          simp [hlt, hne, hsz, to_int_of_lt _ (by omega : -2147483648 ≤ send idx (len - total_sent))
            hint]
        obtain ⟨ih1, ih2, ih3, ih4⟩ := ih (idx + 1)
          (total_sent + (send idx (len - total_sent)).toNat) (by omega) (by omega)
        rw [hr]
        have hacc : ∀ cs : List SendCall,
            (total_sent : Int) +
              accepted (⟨total_sent, len - total_sent, send idx (len - total_sent)⟩ :: cs)
            = ((total_sent + (send idx (len - total_sent)).toNat : Nat) : Int) + accepted cs := by
          intro cs
          rw [accepted_cons_of_ne _ _ hne]
          push_cast
          rw [Int.toNat_of_nonneg (by omega)]
          ring
        refine ⟨ih1, ?_, ?_, ?_⟩
        · intro h0
          obtain ⟨ha, hb⟩ := ih2 h0
          refine ⟨by rw [hacc]; exact ha, ?_⟩
          intro c hc
          rcases List.mem_cons.mp hc with rfl | hc
          · exact hne
          · exact hb c hc
        · intro h0
          obtain ⟨ha, c, hc, hcr⟩ := ih3 h0
          exact ⟨by rw [hacc]; exact ha, c, List.mem_cons_of_mem _ hc, hcr⟩
        · intro pre c post h
          cases pre with
          | nil =>
            simp only [List.nil_append, List.cons.injEq] at h
            obtain ⟨rfl, _⟩ := h
            simp [accepted_nil, hne]
          | cons x pre =>
            simp only [List.cons_append, List.cons.injEq] at h
            obtain ⟨rfl, h⟩ := h
            obtain ⟨h1', h2', h3', h4'⟩ := ih4 pre c post h
            refine ⟨?_, h2', ?_, h4'⟩
            · rw [hacc]; exact h1'
            · rw [h3']; congr 1; simp only [List.length_cons]; omega
    · have hr : send_all_loop send len (fuel + 1) idx total_sent = ⟨some 0, []⟩ := by
        rw [send_all_loop]; simp [hlt]
      rw [hr]
      refine ⟨Or.inl rfl, fun _ => ⟨by simp [accepted_nil]; omega, by simp⟩, by simp, ?_⟩
      intro pre c post h
      simp at h

/-- C8, amended: against a socket that on each call either fails or accepts between 1
byte and the bytes still unsent, and never more than `2 ^ 31 - 1` bytes (what the `int`
of line 16 holds), `send_all` returns after at most `len` calls of `send`; it returns 0
or -1; it returns 0 exactly when the accepted bytes sum to `len`, and -1 exactly when a
call failed; every call starts at the offset reached by the bytes accepted before it and
asks for all the bytes that remain; a failed call is the last one. -/
theorem send_all_all_or_error (send : Nat → Nat → Int) (fuel idx len : Nat)
    (hlen : len < 2 ^ 64) (hfuel : len ≤ fuel)
    (hsend : ∀ i r, 0 < r →
      send i r = -1 ∨ (1 ≤ send i r ∧ send i r ≤ r ∧ send i r ≤ 2147483647)) :
    ∃ ret calls, send_all send fuel idx len = ⟨some ret, calls⟩ ∧
      (ret = 0 ∨ ret = -1) ∧
      (ret = 0 ↔ accepted calls = len) ∧
      (ret = -1 ↔ ∃ c ∈ calls, c.ret = -1) ∧
      (∀ pre c post, calls = pre ++ c :: post →
        (c.offset : Int) = accepted pre ∧ c.len = len - c.offset ∧
        c.ret = send (idx + pre.length) c.len ∧ (c.ret = -1 → post = [])) := by
  obtain ⟨h1, h2, h3, h4⟩ := send_all_loop_spec send len hlen hsend fuel idx 0 (by omega) (by omega)
  rw [← send_all] at h1 h2 h3 h4
  generalize send_all send fuel idx len = r at h1 h2 h3 h4
  obtain ⟨ret, calls⟩ := r
  simp only [Nat.cast_zero, zero_add] at h1 h2 h3 h4
  rcases h1 with h0 | h0
  · subst h0
    obtain ⟨ha, hb⟩ := h2 rfl
    refine ⟨0, calls, rfl, Or.inl rfl, by simp [ha], ?_, h4⟩
    constructor
    · intro h; simp at h
    · rintro ⟨c, hc, hcr⟩; exact absurd hcr (hb c hc)
  · subst h0
    obtain ⟨ha, hb⟩ := h3 rfl
    refine ⟨-1, calls, rfl, Or.inr rfl, ?_, by simp [hb], h4⟩
    constructor
    · intro h; simp at h
    · intro h; omega

/-- The statement of C8, amended, for 3 bytes and a socket that accepts one byte per
call. -/
theorem send_all_all_or_error_witness :
    ∃ ret calls, send_all (fun _ _ => 1) 3 0 3 = ⟨some ret, calls⟩ ∧
      (ret = 0 ∨ ret = -1) ∧
      (ret = 0 ↔ accepted calls = (3 : Nat)) ∧
      (ret = -1 ↔ ∃ c ∈ calls, c.ret = -1) ∧
      (∀ pre c post, calls = pre ++ c :: post →
        (c.offset : Int) = accepted pre ∧ c.len = 3 - c.offset ∧
        c.ret = (fun (_ _ : Nat) => (1 : Int)) (0 + pre.length) c.len ∧
        (c.ret = -1 → post = [])) :=
  send_all_all_or_error (fun _ _ => 1) 3 0 3 (by decide) (by decide)
    (fun _ r hr => Or.inr ⟨le_refl _, by show (1 : Int) ≤ (r : Int); omega,
      by show (1 : Int) ≤ 2147483647; decide⟩)

/-- C8 as stated fails: asked to send 4294967295 bytes over a socket that accepts on
each call all the bytes it is offered, `send_all` returns -1 after one call of `send`,
although that call accepted all 4294967295 bytes: stored in an `int`, its result
reads -1. -/
theorem send_all_narrowing_counterexample :
    (4294967295 : Nat) < 2 ^ 64 ∧
    (∀ i r : Nat, 0 < r →
      (fun (_ n : Nat) => (n : Int)) i r = -1 ∨
        (1 ≤ (fun (_ n : Nat) => (n : Int)) i r ∧ (fun (_ n : Nat) => (n : Int)) i r ≤ r)) ∧
    send_all (fun _ n => n) 4294967295 0 4294967295
      = ⟨some (-1), [⟨0, 4294967295, 4294967295⟩]⟩ ∧
    accepted [⟨0, 4294967295, 4294967295⟩] = (4294967295 : Nat) ∧
    to_int 4294967295 = -1 := by
  refine ⟨by decide, ?_, by decide!, by decide!, by decide!⟩
  intro i r hr
  exact Or.inr ⟨by show (1 : Int) ≤ (r : Int); omega, le_refl _⟩

/-! ## Runs of the code at single inputs -/

/-- C4: with `time_s = 1` and the value 5 found in the uninitialised `duration_s`, the
send loop of the client is left at its first check, after no clock reading and no chunk,
and the sentinel is the only thing sent; with the value 0 in `duration_s` the same loop
runs until the reading that is one second after the start. -/
theorem client_loop_left_at_first_check :
    send_loop (fun _ n => n) 1000 1 0 [1 / 1000, 2 / 1000] 5 0 0 0
      = ⟨.elapsed, 0, 5, 0, 0, [1 / 1000, 2 / 1000]⟩ ∧
    client 5000 1 ⟨0, 3, 0, 5, 0, [1 / 1000, 2 / 1000], fun _ n => n, 1000, 40⟩
      = ⟨some 0, [.getaddrinfo, .socket 3, .connect 3, .send 3, .recv 3, .close 3,
          .freeaddrinfo], some ⟨0, some 0⟩, none⟩ ∧
    send_loop (fun _ n => n) 1000 1 0 [1 / 2, 1, 3 / 2] 0 0 0 0
      = ⟨.elapsed, 2000, 1, 2, 2, [3 / 2]⟩ := by
  decide!

/-- C6: with an elapsed time of zero the report step of the client takes its rate from a
division by zero, for every byte total, while the report step of the server prints
nothing; a run of `client` whose two clock readings coincide reports such a rate. -/
theorem client_report_divides_by_zero (b : Int) :
    (client_report b 0).rate = none ∧
    server_report b 0 = none ∧
    client 5000 1 ⟨0, 3, 0, 5, 0, [0], fun _ n => n, 1000, 40⟩
      = ⟨some 0, [.getaddrinfo, .socket 3, .connect 3, .send 3, .recv 3, .close 3,
          .freeaddrinfo], some ⟨0, none⟩, none⟩ := by
  refine ⟨?_, ?_, by decide!⟩
  · simp [client_report, fdiv]
  · simp [server_report]

/-- C9: the drain loop of `main.cpp` does not stop at a read in which `FIN` follows a
data byte, nor when `FIN` straddles two reads: it goes on to a further `recv`; the
drain loop of `iperfer.cpp` stops on the same reads. -/
theorem main_drain_misses_sentinel :
    MainCpp.drain [.bytes ['0', 'F', 'I', 'N']] 0 [] 0
      = ⟨.blocked, 4, ['0', 'F', 'I', 'N'], 2⟩ ∧
    MainCpp.drain [.bytes ['F'], .bytes ['I', 'N']] 0 [] 0 = ⟨.blocked, 3, ['I', 'N'], 3⟩ ∧
    MainCpp.drain [.bytes ['F', 'I', 'N']] 0 [] 0 = ⟨.sentinel, 3, ['F', 'I', 'N'], 1⟩ ∧
    drain [.bytes ['0', 'F', 'I', 'N']] 0 [] 0 = ⟨.sentinel, 4, ['0', 'F', 'I', 'N'], 1⟩ ∧
    drain [.bytes ['F'], .bytes ['I', 'N']] 0 [] 0 = ⟨.sentinel, 3, ['F', 'I', 'N'], 2⟩ := by
  decide!

/-- C10: when the acknowledgment cannot be sent, `server` returns -1 with the listening
socket 3 and the accepted socket 4 both still open: its trace holds no `close`. -/
theorem server_ack_failure_leaks_sockets :
    server 5000 ⟨0, 3, 0, 0, 4, [.bytes ['F', 'I', 'N']], 0, 1, fun _ _ => -1, 40, 0⟩
      = ⟨some (-1), [.getaddrinfo, .socket 3, .bind 3, .freeaddrinfo, .listen 3,
          .accept 3 4, .recv 4, .send 4], none, none⟩ ∧
    (server 5000 ⟨0, 3, 0, 0, 4, [.bytes ['F', 'I', 'N']], 0, 1, fun _ _ => -1, 40, 0⟩).trace.count
      (.close 3) = 0 ∧
    (server 5000 ⟨0, 3, 0, 0, 4, [.bytes ['F', 'I', 'N']], 0, 1, fun _ _ => -1, 40, 0⟩).trace.count
      (.close 4) = 0 ∧
    (server 5000 ⟨0, 3, 0, 0, 4, [.bytes ['F', 'I', 'N']], 0, 1, fun _ n => n, 40, 0⟩).trace
      = [.getaddrinfo, .socket 3, .bind 3, .freeaddrinfo, .listen 3, .accept 3 4, .recv 4,
          .send 4, .shutdown 4, .close 4, .close 3] := by
  decide!

end IPerfer
